import Mathlib

/-!
Verification development for the temp-email mail/code-extraction core.

The Python services are shallowly embedded as executable Lean definitions:
  * `app/services/code_service.py`      → the regex extraction strategy
  * `app/services/pattern_code_service.py` → the trained-pattern strategy
  * `app/services/llm_code_service.py`  → the LLM response post-processing
  * `app/services/code_extraction_strategy.py` → the extraction cascade
  * `app/services/cache_manager.py`     → the dual-tier cache / coalescing
  * `app/services/storage_service.py`   → the in-memory mail store
  * `app/services/mail_service.py`      → provider fetch and polling waiter

Modelling conventions: Python floats become `ℚ` (all confidences in the code
are decimal literals with two digits, written here with `mkRat n 100` so that
the kernel can evaluate them); `datetime` timestamps become `ℕ`; Python
exceptions become `Except`; dictionaries keyed by token/address become
association lists or per-key values.
-/

/-- Confidence written as a percentage: `pct 95` is the Python literal `0.95`.
`mkRat` is used instead of the decimal literal because the kernel can
evaluate it. -/
def pct (n : ℕ) : ℚ := mkRat n 100

/-- `app/models.py` `Code`: one candidate verification code.  `length` is
`int` in the source (it is not always `len(code)`, see the LLM strategy), so
it is embedded as `ℤ`. -/
structure Code where
  code : String
  type : String
  length : ℤ
  pattern : String
  confidence : ℚ
deriving DecidableEq, Repr

/-- `app/models.py` `Mail`: one received email.  `received_at` is an abstract
timestamp. -/
structure Mail where
  id : String
  email_token : String
  from_ : String
  to_ : String
  subject : String
  content : String
  html_content : Option String
  received_at : ℕ
  read : Bool
  codes : Option (List Code)
deriving DecidableEq, Repr

/-! ## Character classes

ASCII fragments of the character classes used by the regexes in
`code_service.py`.  All concrete inputs evaluated below are ASCII, and the
word-character class is only consulted for the `\b`-anchored numeric and
upper-alphanumeric patterns, whose classes are ASCII. -/

def isAsciiDigit (c : Char) : Bool := decide ('0' ≤ c) && decide (c ≤ '9')

def isUpperAlpha (c : Char) : Bool := decide ('A' ≤ c) && decide (c ≤ 'Z')

def isLowerAlpha (c : Char) : Bool := decide ('a' ≤ c) && decide (c ≤ 'z')

/-- `[A-Z0-9]`. -/
def isUpperAlnum (c : Char) : Bool := isUpperAlpha c || isAsciiDigit c

/-- `[A-Z0-9]` under `re.IGNORECASE`, i.e. `[A-Za-z0-9]`. -/
def isAlnumCI (c : Char) : Bool := isUpperAlpha c || isLowerAlpha c || isAsciiDigit c

/-- Python regex `\w` (ASCII fragment): `[A-Za-z0-9_]`. -/
def isWordChar (c : Char) : Bool := isAlnumCI c || c = '_'

/-- Python regex `\s` (ASCII fragment). -/
def isSpaceChar (c : Char) : Bool :=
  c = ' ' || c = '\t' || c = '\n' || c = '\r' || c = '\x0b' || c = '\x0c'

/-- The separator class `[\s:：]` used between a keyword and the code. -/
def isSepChar (c : Char) : Bool := isSpaceChar c || c = ':' || c = '：'

/-- `[A-Za-z0-9_-]`, the class of the token and URL-parameter patterns. -/
def isTokenChar (c : Char) : Bool := isAlnumCI c || c = '_' || c = '-'

/-- A `\b` word boundary to the left of the current position, given the
previous character (`none` at the start of the text). -/
def boundaryBefore (prev : Option Char) : Bool :=
  match prev with
  | none => true
  | some c => !isWordChar c

/-- A `\b` word boundary to the right, given the remaining text. -/
def boundaryAfter (s : List Char) : Bool :=
  match s with
  | [] => true
  | c :: _ => !isWordChar c

/-! ## `re.findall` for the fixed patterns of `code_service.py`

Each scanner follows the Python regex engine: try a match at the current
position; on success emit it and resume scanning right after the match
(non-overlapping), otherwise advance one character.  Scanners carry the
previous character for `\b` and a fuel argument bounded by the text length. -/

/-- Match exactly `n` ASCII digits at the head, returning them and the rest. -/
def takeExactDigits : ℕ → List Char → Option (List Char × List Char)
  | 0, s => some ([], s)
  | _ + 1, [] => none
  | n + 1, c :: s =>
    if isAsciiDigit c then
      match takeExactDigits n s with
      | some (ds, rest) => some (c :: ds, rest)
      | none => none
    else none

/-- `re.findall(r"\b\d{n}\b", text)`: scanning loop. -/
def findNumGo (n : ℕ) : ℕ → Option Char → List Char → List (List Char)
  | 0, _, _ => []
  | _ + 1, _, [] => []
  | fuel + 1, prev, c :: rest =>
    if boundaryBefore prev then
      match takeExactDigits n (c :: rest) with
      | some (ds, rest2) =>
        if boundaryAfter rest2 then
          ds :: findNumGo n fuel (ds.getLast? <|> prev) rest2
        else findNumGo n fuel (some c) rest
      | none => findNumGo n fuel (some c) rest
    else findNumGo n fuel (some c) rest

/-- `re.findall(r"\b\d{n}\b", text)`. -/
def findNum (n : ℕ) (s : List Char) : List (List Char) :=
  findNumGo n (s.length + 1) none s

/-- Number of leading characters satisfying `p`. -/
def countLeading (p : Char → Bool) : List Char → ℕ
  | [] => 0
  | c :: s => if p c then countLeading p s + 1 else 0

/-- Greedy backtracking for `{low,}`-bounded class repetition followed by
`\b`: try the candidate length `len` first, then shorter ones down to `low`,
accepting the first length whose following position is a word boundary.
This is exactly the backtracking order of the engine for `[..]{low,high}\b`. -/
def bestBoundedLen (s : List Char) (low : ℕ) : ℕ → Option ℕ
  | 0 => none
  | len + 1 =>
    if len + 1 < low then none
    else if boundaryAfter (s.drop (len + 1)) then some (len + 1)
    else bestBoundedLen s low len

/-- `re.findall(r"\b[A-Z0-9]{6,10}\b", text)`: scanning loop. -/
def findAlnumGo : ℕ → Option Char → List Char → List (List Char)
  | 0, _, _ => []
  | _ + 1, _, [] => []
  | fuel + 1, prev, c :: rest =>
    if boundaryBefore prev then
      match bestBoundedLen (c :: rest) 6 (min (countLeading isUpperAlnum (c :: rest)) 10) with
      | some len =>
        (c :: rest).take len ::
          findAlnumGo fuel (((c :: rest).take len).getLast? <|> prev) ((c :: rest).drop len)
      | none => findAlnumGo fuel (some c) rest
    else findAlnumGo fuel (some c) rest

/-- `re.findall(r"\b[A-Z0-9]{6,10}\b", text)`. -/
def findAlnum (s : List Char) : List (List Char) :=
  findAlnumGo (s.length + 1) none s

/-- Case-insensitive literal match (`re.IGNORECASE` lower-cases both sides;
for the non-ASCII keyword literals `Char.toLower` is the identity, as in
Python for those characters). -/
def matchLitCI : List Char → List Char → Option (List Char)
  | [], s => some s
  | _ :: _, [] => none
  | k :: ks, c :: s => if c.toLower = k.toLower then matchLitCI ks s else none

/-- First alternative of `(?:k1|k2|...)` that matches, in pattern order. -/
def matchAnyLitCI : List (List Char) → List Char → Option (List Char)
  | [], _ => none
  | k :: ks, s =>
    match matchLitCI k s with
    | some r => some r
    | none => matchAnyLitCI ks s

/-- Greedy repetition of a class, capped at `maxN` characters. -/
def takeClass (p : Char → Bool) : ℕ → List Char → (List Char × List Char)
  | 0, s => ([], s)
  | _ + 1, [] => ([], [])
  | maxN + 1, c :: s =>
    if p c then
      match takeClass p maxN s with
      | (g, rest) => (c :: g, rest)
    else ([], c :: s)

/-- Matcher for `(?:code|Code|驗證碼|验证码|OTP|otp)[\s:：]*([A-Z0-9]{4,10})`
(compiled with `re.IGNORECASE`).  Returns the captured group and the text
after the whole match.  The separator star needs no backtracking because the
separator class and the code class are disjoint. -/
def ctxKeywordMatcher (s : List Char) : Option (List Char × List Char) :=
  match matchAnyLitCI
      ["code".toList, "Code".toList, "驗證碼".toList, "验证码".toList,
        "OTP".toList, "otp".toList] s with
  | none => none
  | some r1 =>
    match takeClass isAlnumCI 10 (r1.dropWhile isSepChar) with
    | (g, rest) => if 4 ≤ g.length then some (g, rest) else none

/-- Matcher for `(?:your|Your)\s+(?:verification|code)[\s:：]*([A-Z0-9]{4,10})`
(compiled with `re.IGNORECASE`).  The `\s+` needs no backtracking because the
following literals start with non-space characters. -/
def yourKeywordMatcher (s : List Char) : Option (List Char × List Char) :=
  match matchAnyLitCI ["your".toList, "Your".toList] s with
  | none => none
  | some r1 =>
    match r1.span isSpaceChar with
    | (ws, r2) =>
      if ws.length = 0 then none
      else
        match matchAnyLitCI ["verification".toList, "code".toList] r2 with
        | none => none
        | some r3 =>
          match takeClass isAlnumCI 10 (r3.dropWhile isSepChar) with
          | (g, rest) => if 4 ≤ g.length then some (g, rest) else none

/-- Matcher for `(?:token|Token)[\s:：]*([A-Za-z0-9_-]{10,40})` (with
`re.IGNORECASE`). -/
def tokenKeywordMatcher (s : List Char) : Option (List Char × List Char) :=
  match matchAnyLitCI ["token".toList, "Token".toList] s with
  | none => none
  | some r1 =>
    match takeClass isTokenChar 40 (r1.dropWhile isSepChar) with
    | (g, rest) => if 10 ≤ g.length then some (g, rest) else none

/-- Matcher for `[?&](?:code|token|verify)=([A-Za-z0-9_-]+)` (with
`re.IGNORECASE`). -/
def urlParamMatcher (s : List Char) : Option (List Char × List Char) :=
  match s with
  | [] => none
  | c :: r0 =>
    if c = '?' || c = '&' then
      match matchAnyLitCI ["code".toList, "token".toList, "verify".toList] r0 with
      | none => none
      | some r1 =>
        match r1 with
        | [] => none
        | e :: r2 =>
          if e = '=' then
            match r2.span isTokenChar with
            | (g, rest) => if 1 ≤ g.length then some (g, rest) else none
          else none
    else none

/-- `re.findall` scanning loop for a group-capturing pattern: try the matcher
at each position, emit the group and resume after the match.  All matchers
above consume at least one character on success. -/
def findCtxGo (m : List Char → Option (List Char × List Char)) :
    ℕ → List Char → List (List Char)
  | 0, _ => []
  | _ + 1, [] => []
  | fuel + 1, c :: rest =>
    match m (c :: rest) with
    | some (g, after) => g :: findCtxGo m fuel after
    | none => findCtxGo m fuel rest

/-- `re.findall` of a group-capturing pattern over a text. -/
def findCtx (m : List Char → Option (List Char × List Char)) (s : List Char) :
    List (List Char) :=
  findCtxGo m (s.length + 1) s

/-! ## `CodeService.extract_codes` (`code_service.py`) -/

/-- `CodeService._is_duplicate`. -/
def isDuplicate (codes : List Code) (c : String) : Bool :=
  codes.any (fun x => x.code = c)

/-- One `for code in matches:` loop body of `extract_codes`: append the codes
built by `mk` whose string is not already present and passes `keep` (the
`len(code) >= 6` guard of the URL pattern; `keep` is constantly true
elsewhere). -/
def addFoundIf (keep : List Char → Bool) (mk : List Char → Code) :
    List Code → List (List Char) → List Code
  | acc, [] => acc
  | acc, cs :: rest =>
    if !isDuplicate acc (String.mk cs) && keep cs then
      addFoundIf keep mk (acc ++ [mk cs]) rest
    else addFoundIf keep mk acc rest

def alwaysKeep : List Char → Bool := fun _ => true

/-- The `sorted(codes, key=lambda x: x.confidence, reverse=True)` at the end
of `extract_codes`: the Python sort is stable, and stable descending order is
exactly insertion sort with the comes-before test
`b.confidence ≤ a.confidence` (true on ties, so an earlier element stays in
front of a later equal one). -/
def sortByConfidence (codes : List Code) : List Code :=
  codes.insertionSort (fun a b => b.confidence ≤ a.confidence)

/-- `CodeService.extract_codes`, assembled in source order: numeric 6/4/8,
alphanumeric 6-10, the three context-keyword patterns, URL parameters, then
the confidence sort. -/
def extractCodes (text : List Char) : List Code :=
  let codes : List Code := []
  let codes := addFoundIf alwaysKeep
    (fun cs => ⟨String.mk cs, "numeric", 6, "\\b\\d\x7b6\x7d\\b", pct 90⟩)
    codes (findNum 6 text)
  let codes := addFoundIf alwaysKeep
    (fun cs => ⟨String.mk cs, "numeric", 4, "\\b\\d\x7b4\x7d\\b", pct 80⟩)
    codes (findNum 4 text)
  let codes := addFoundIf alwaysKeep
    (fun cs => ⟨String.mk cs, "numeric", 8, "\\b\\d\x7b8\x7d\\b", pct 85⟩)
    codes (findNum 8 text)
  let codes := addFoundIf alwaysKeep
    (fun cs => ⟨String.mk cs, "alphanumeric", (cs.length : ℤ), "alnum_6_10", pct 75⟩)
    codes (findAlnum text)
  let codes := addFoundIf alwaysKeep
    (fun cs => ⟨String.mk cs, if 15 < cs.length then "token" else "alphanumeric",
      (cs.length : ℤ), "ctx_keyword", pct 95⟩)
    codes (findCtx ctxKeywordMatcher text)
  let codes := addFoundIf alwaysKeep
    (fun cs => ⟨String.mk cs, if 15 < cs.length then "token" else "alphanumeric",
      (cs.length : ℤ), "ctx_your", pct 95⟩)
    codes (findCtx yourKeywordMatcher text)
  let codes := addFoundIf alwaysKeep
    (fun cs => ⟨String.mk cs, if 15 < cs.length then "token" else "alphanumeric",
      (cs.length : ℤ), "ctx_token", pct 95⟩)
    codes (findCtx tokenKeywordMatcher text)
  let codes := addFoundIf (fun cs => 6 ≤ cs.length)
    (fun cs => ⟨String.mk cs, if 15 < cs.length then "token" else "alphanumeric",
      (cs.length : ℤ), "url_param", pct 85⟩)
    codes (findCtx urlParamMatcher text)
  sortByConfidence codes

/-- The input of the regex confidence-ordering example in the spec. -/
def inputC1 : List Char := "Your verification code is 482931. Valid until 2025.".toList

/-! ## `PatternCodeService.extract_codes` (`pattern_code_service.py`)

The trained patterns carry user-supplied regexes that are compiled at run
time, so the per-keyword search (`keyword occurs in the text` followed by
`re.search(pattern.regex, window)` and `.group().strip()`) is abstracted as
an oracle `find`: `find p k = some ec` means keyword `k` of pattern `p` was
found in the text and the regex of the pattern matched in the 100-character
window after it, yielding the stripped code `ec`.  Everything after that
point (dedup, the `Code` record, the break, the confidence sort) is embedded
from the source. -/

/-- `app/models.py` `Pattern` (the fields read by the extraction loop). -/
structure TrainedPattern where
  id : String
  keywords_before : List String
  code_type : String
  confidence : ℚ
deriving DecidableEq, Repr

/-- The `for keyword in pattern.keywords_before:` loop: on the first keyword
whose search yields a not-yet-seen code, append the `Code` and break; a
duplicate hit does not break. -/
def patternKeywordLoop (find : TrainedPattern → String → Option String)
    (p : TrainedPattern) : List Code → List String → List Code
  | acc, [] => acc
  | acc, k :: ks =>
    match find p k with
    | some ec =>
      if isDuplicate acc ec then patternKeywordLoop find p acc ks
      else acc ++ [⟨ec, p.code_type, (ec.length : ℤ), "user_pattern_" ++ p.id, p.confidence⟩]
    | none => patternKeywordLoop find p acc ks

/-- `PatternCodeService.extract_codes`: outer loop over the learned patterns,
then the same stable confidence sort as the regex service. -/
def patternExtractCodes (find : TrainedPattern → String → Option String)
    (patterns : List TrainedPattern) : List Code :=
  sortByConfidence (patterns.foldl (fun acc p => patternKeywordLoop find p acc p.keywords_before) [])

/-! ## `LLMCodeService._parse_llm_response` (`llm_code_service.py`)

The JSON-array extraction and `json.loads` are the parsing boundary; the
embedding starts from the decoded items.  An `LLMItem` is one dict of the
decoded array that has a `code` key (items without one, and non-dict items,
are skipped by the source before any `Code` is built, so they are not
modelled); `code` is the already-stringified value, the other fields are
`None`-able. -/

structure LLMItem where
  code : String
  type : Option String
  confidence : Option ℚ
  length : Option ℤ
deriving DecidableEq, Repr

def validCodeTypes : List String := ["numeric", "alphanumeric", "token"]

/-- Python `str.strip()` (ASCII whitespace fragment): drop leading and
trailing whitespace. -/
def pyStrip (s : String) : String :=
  String.mk (((s.toList.dropWhile isSpaceChar).reverse.dropWhile isSpaceChar).reverse)

/-- The candidate-collection loop of `_parse_llm_response`: strip, drop
empties, dedupe by raw value, normalise the type, default confidence `0.8`
and default length `len(raw_code)`. -/
def llmCollect : List String → List Code → List LLMItem → List Code
  | _, acc, [] => acc
  | seen, acc, item :: rest =>
    let raw := pyStrip item.code
    if raw = "" then llmCollect seen acc rest
    else if raw ∈ seen then llmCollect seen acc rest
    else
      let ty0 := (item.type).getD "alphanumeric"
      let ty := if ty0 ∈ validCodeTypes then ty0 else "alphanumeric"
      llmCollect (seen ++ [raw])
        (acc ++ [⟨raw, ty, (item.length).getD (raw.length : ℤ), "llm_extracted",
          (item.confidence).getD (pct 80)⟩]) rest

/-- Python `str.isdigit` (ASCII fragment): non-empty and all digits. -/
def pyIsDigit (s : String) : Bool := !(s.toList.isEmpty) && s.toList.all isAsciiDigit

def isNumericCand (c : Code) : Bool := c.type = "numeric" && pyIsDigit c.code

/-- `rank_key`: `(-confidence, -is_numeric, -is_len6, -is_len_4_8)` compared
lexicographically; `rankLe a b` is `rank_key(a) ≤ rank_key(b)`, the
comes-before test of the stable ascending sort. -/
def rankLe (a b : Code) : Bool :=
  let a1 : ℚ := -a.confidence
  let b1 : ℚ := -b.confidence
  let a2 : ℤ := -(if isNumericCand a then 1 else 0)
  let b2 : ℤ := -(if isNumericCand b then 1 else 0)
  let a3 : ℤ := -(if a.length = 6 then 1 else 0)
  let b3 : ℤ := -(if b.length = 6 then 1 else 0)
  let a4 : ℤ := -(if 4 ≤ a.length ∧ a.length ≤ 8 then 1 else 0)
  let b4 : ℤ := -(if 4 ≤ b.length ∧ b.length ≤ 8 then 1 else 0)
  decide (a1 < b1) || (decide (a1 = b1) &&
    (decide (a2 < b2) || (decide (a2 = b2) &&
      (decide (a3 < b3) || (decide (a3 = b3) && decide (a4 ≤ b4))))))

/-- `_parse_llm_response` after decoding: collect candidates, return `[]` if
none, otherwise the stable-sorted best single candidate. -/
def parseLLMResponse (items : List LLMItem) : List Code :=
  let candidates := llmCollect [] [] items
  match candidates.insertionSort (fun a b => rankLe a b = true) with
  | [] => []
  | best :: _ => [best]

/-! ## `CodeExtractionStrategy.extract_codes_smart`
(`code_extraction_strategy.py`)

The three `_extract_with_*` helpers each try the plain-text body and fall
back to HTML-stripped content, returning `[]` on an internal exception; the
mail-dependent result of each helper is therefore passed in as a parameter
(`patternRes` / `llmRes` / `regexRes`).  The returned triple is
`(codes, method_used, invocation trace)`: the last component records, in
order, which strategies were invoked, so that "never invokes the LLM
strategy" is a statement about the function. -/

/-- Step 3 of the cascade: the regex fallback, returned unconditionally. -/
def cascadeStep3 (regexRes : List Code) (invoked : List String) :
    List Code × String × List String :=
  (regexRes, "regex", invoked ++ ["regex"])

/-- Step 2 of the cascade: the LLM strategy, only when
`settings.use_llm_extraction` is set, accepted when the top confidence is at
least `0.80`. -/
def cascadeStep2 (useLLM : Bool) (llmRes regexRes : List Code) (invoked : List String) :
    List Code × String × List String :=
  if useLLM then
    match llmRes with
    | c :: _ =>
      if pct 80 ≤ c.confidence then (llmRes, "llm", invoked ++ ["llm"])
      else cascadeStep3 regexRes (invoked ++ ["llm"])
    | [] => cascadeStep3 regexRes (invoked ++ ["llm"])
  else cascadeStep3 regexRes invoked

/-- The smart cascade (the code after the `preferred_method` dispatch):
pattern first, accepted when the top confidence is at least `0.85`. -/
def cascadeExtract (useLLM : Bool) (patternRes llmRes regexRes : List Code)
    (invoked : List String) : List Code × String × List String :=
  match patternRes with
  | c :: _ =>
    if pct 85 ≤ c.confidence then (patternRes, "pattern", invoked ++ ["pattern"])
    else cascadeStep2 useLLM llmRes regexRes (invoked ++ ["pattern"])
  | [] => cascadeStep2 useLLM llmRes regexRes (invoked ++ ["pattern"])

/-- `extract_codes_smart`: the `preferred_method` dispatch.  For `pattern`
and `llm` the source returns early only when the strategy found something
(`if codes:`); otherwise control falls through into the cascade.  For
`regex` it returns unconditionally. -/
def extractCodesSmart (pref : Option String) (useLLM : Bool)
    (patternRes llmRes regexRes : List Code) : List Code × String × List String :=
  if pref = some "pattern" then
    match patternRes with
    | _ :: _ => (patternRes, "pattern", ["pattern"])
    | [] => cascadeExtract useLLM patternRes llmRes regexRes ["pattern"]
  else if pref = some "llm" then
    match llmRes with
    | _ :: _ => (llmRes, "llm", ["llm"])
    | [] => cascadeExtract useLLM patternRes llmRes regexRes ["llm"]
  else if pref = some "regex" then (regexRes, "regex", ["regex"])
  else cascadeExtract useLLM patternRes llmRes regexRes []

/-! ## `CacheManager.get_or_fetch_mails` (`cache_manager.py`), sequential path

Redis plus the JSON round-trip is modelled as in-memory state: a cache level
holds an optional entry `(mails, cached_at)`.  `_get_from_cache` returns the
entry only while `now ≤ cached_at + ttl` (the source expires when
`datetime.now() > expires_at`); the returned dict is non-empty and hence
always truthy, so an entry with an empty mail list is still a hit.  The
sequential model below is the run of a single caller with no concurrent
fetch in flight (`fetching_locks` empty); the coalescing behaviour is
modelled separately as a transition system further down.  The provider call
`fetch_func` is passed as its outcome: `Except.error` for a raised
exception.  The L2 TTL is the literal `300`; the L1 TTL is
`settings.cache_ttl` (default 30), kept as a parameter. -/

structure CacheEntry where
  mails : List Mail
  cached_at : ℕ
deriving DecidableEq, Repr

/-- `CacheManager._get_from_cache`: an entry is served only while
`now ≤ cached_at + ttl`. -/
def getFromCache (ttl now : ℕ) (entry : Option CacheEntry) : Option CacheEntry :=
  match entry with
  | some e => if now ≤ e.cached_at + ttl then some e else none
  | none => none

/-- Both cache tiers for one address. -/
structure CacheState where
  l1 : Option CacheEntry
  l2 : Option CacheEntry
deriving DecidableEq, Repr

/-- `CacheManager._save_to_cache`: store the fetched list into both tiers,
stamped with the current time. -/
def saveToCache (now : ℕ) (mails : List Mail) : CacheState :=
  ⟨some ⟨mails, now⟩, some ⟨mails, now⟩⟩

/-- `CacheManager.get_or_fetch_mails`, single caller, no in-flight fetch:
L1 lookup unless forced, then the provider call, then on a raised provider
exception the L2 fallback and the empty-list fallback.  The result is
`Except.ok` in every branch because the `except` clause catches the
provider exception; the returned pair is `((mails, from_cache), new state)`. -/
def getOrFetchMails (l1ttl now : ℕ) (st : CacheState) (forceRefresh : Bool)
    (fetchRes : Except Unit (List Mail)) :
    Except Unit ((List Mail × Bool) × CacheState) :=
  if !forceRefresh then
    match getFromCache l1ttl now st.l1 with
    | some e => Except.ok ((e.mails, true), st)
    | none =>
      match fetchRes with
      | Except.ok mails => Except.ok ((mails, false), saveToCache now mails)
      | Except.error _ =>
        match getFromCache 300 now st.l2 with
        | some e => Except.ok ((e.mails, true), st)
        | none => Except.ok (([], false), st)
  else
    match fetchRes with
    | Except.ok mails => Except.ok ((mails, false), saveToCache now mails)
    | Except.error _ =>
      match getFromCache 300 now st.l2 with
      | some e => Except.ok ((e.mails, true), st)
      | none => Except.ok (([], false), st)

/-! ## Request coalescing (`cache_manager.py`), concurrent model

An interleaving model of N concurrent `get_or_fetch_mails` callers for the
same address, starting with both cache tiers empty and `force_refresh`
false.  Each caller is a coroutine advanced in atomic segments between
`await` points:

  * `start`    → suspend on the L1 redis read;
  * `deciding` → resume with the read value: L1 hit returns, otherwise an
    existing lock sends the caller into the bounded wait
    (`for _ in range(30): await asyncio.sleep(0.1)`), and a free lock is
    taken (`fetching_locks[email] = True`) followed by the provider call —
    there is no `await` between the lock check and the lock write;
  * `waiting n` → wake from one sleep: a present `fetching_results` entry is
    popped and returned as the coalesced result; after the 30th failed check
    the caller takes the lock and issues its own provider call (the loop
    falls through to line 80 of the source without re-reading the cache);
  * `fetching` → the provider returns: save both tiers, publish
    `fetching_results`, release the lock in the `finally`, and schedule a
    cleanup task (which, when scheduled, pops `fetching_results`).

The fetch itself is instantaneous with payload `payload`: segments that the
source separates by further awaits (the two redis writes) are merged into
the segment of their task, which corresponds to schedules in which no other task
runs between them.  A schedule is a list of task indices; index `N` steps a
pending cleanup task.  `fetchCount` counts provider invocations, incremented
at the moment the provider call is issued. -/

inductive TaskPc where
  | start : TaskPc
  | deciding : TaskPc
  | waiting : ℕ → TaskPc
  | fetching : TaskPc
  | doneHit : List Mail → TaskPc
  | doneCoalesced : List Mail → TaskPc
  | doneFresh : List Mail → TaskPc
deriving DecidableEq, Repr

structure CoalesceState where
  tasks : List TaskPc
  lock : Bool
  l1 : Option (List Mail)
  results : Option (List Mail)
  cleanups : ℕ
  fetchCount : ℕ
deriving DecidableEq, Repr

/-- One segment of task `pc`, returning the new task state and the new shared
state (tasks list updated by the caller). -/
def stepPc (payload : List Mail) (s : CoalesceState) (pc : TaskPc) :
    TaskPc × CoalesceState :=
  match pc with
  | TaskPc.start => (TaskPc.deciding, s)
  | TaskPc.deciding =>
    match s.l1 with
    | some m => (TaskPc.doneHit m, s)
    | none =>
      if s.lock then (TaskPc.waiting 30, s)
      else (TaskPc.fetching, { s with lock := true, fetchCount := s.fetchCount + 1 })
  | TaskPc.waiting n =>
    match s.results with
    | some r => (TaskPc.doneCoalesced r, { s with results := none })
    | none =>
      if n ≤ 1 then (TaskPc.fetching, { s with lock := true, fetchCount := s.fetchCount + 1 })
      else (TaskPc.waiting (n - 1), s)
  | TaskPc.fetching =>
    (TaskPc.doneFresh payload,
      { s with l1 := some payload, results := some payload, lock := false,
               cleanups := s.cleanups + 1 })
  | TaskPc.doneHit m => (TaskPc.doneHit m, s)
  | TaskPc.doneCoalesced m => (TaskPc.doneCoalesced m, s)
  | TaskPc.doneFresh m => (TaskPc.doneFresh m, s)

/-- Advance the system by one scheduled step: task `i` for `i < N`, the
cleanup task for `i = N` (a no-op when no cleanup is pending). -/
def stepSys (payload : List Mail) (s : CoalesceState) (i : ℕ) : CoalesceState :=
  if i = s.tasks.length then
    if s.cleanups = 0 then s
    else { s with cleanups := s.cleanups - 1, results := none }
  else
    match s.tasks[i]? with
    | none => s
    | some pc =>
      match stepPc payload s pc with
      | (pc2, s2) => { s2 with tasks := s2.tasks.set i pc2 }

/-- Run a schedule. -/
def runSched (payload : List Mail) (sched : List ℕ) (s : CoalesceState) : CoalesceState :=
  sched.foldl (stepSys payload) s

/-- N concurrent callers, no cache entry, nothing in flight. -/
def initCoalesce (n : ℕ) : CoalesceState :=
  ⟨List.replicate n TaskPc.start, false, none, none, 0, 0⟩

/-- A task state that has issued (or completed) its own provider call. -/
def startedFetch : TaskPc → Bool
  | TaskPc.fetching => true
  | TaskPc.doneFresh _ => true
  | _ => false

/-! ## `StorageService` (`storage_service.py`)

The store maps `email_token` to a mail list; the claims below are about one
per-token list, so the operations are embedded per token.  `save_mails` first
stamps every incoming mail with the token, then appends those whose `id` is
not yet present (the `existing_ids` set also grows with the incoming mails,
so duplicates inside one batch are dropped too), and finally sets the
`mail_count` of the mailbox to the length of the merged list. -/

/-- The `for mail in mails: mail.email_token = email_token` stamping loop. -/
def setEmailToken (tok : String) (mails : List Mail) : List Mail :=
  mails.map (fun m => { m with email_token := tok })

/-- The merge loop of `save_mails`: `merged` starts as the existing list and
`ids` as its id set; each new mail whose id is unseen is appended to both. -/
def mergeMails : List Mail → List String → List Mail → List Mail × List String
  | merged, ids, [] => (merged, ids)
  | merged, ids, m :: rest =>
    if m.id ∈ ids then mergeMails merged ids rest
    else mergeMails (merged ++ [m]) (ids ++ [m.id]) rest

/-- `StorageService.save_mails` restricted to one token: returns the stored
list for that token after the call (the `mail_count` of the mailbox is set to its
length). -/
def saveMails (tok : String) (existing incoming : List Mail) : List Mail :=
  (mergeMails existing (existing.map Mail.id) (setEmailToken tok incoming)).1

/-- The `sorted(mails, key=lambda m: m.received_at, reverse=True)` of
`get_mails`: stable descending order by receive time. -/
def sortMailsDesc (mails : List Mail) : List Mail :=
  mails.insertionSort (fun a b => b.received_at ≤ a.received_at)

/-- `StorageService.get_mails` for the stored list of one token: sort newest
first, then slice `[offset : offset + limit]` (everything from `offset` when
`limit` is `None`). -/
def getMails (stored : List Mail) (limit : Option ℕ) (offset : ℕ) : List Mail :=
  match limit with
  | some l => ((sortMailsDesc stored).drop offset).take l
  | none => (sortMailsDesc stored).drop offset

/-- `StorageService.get_unread_mails` for the stored list of one token: a plain
filter on the stored order, with no sort. -/
def getUnreadMails (stored : List Mail) : List Mail :=
  stored.filter (fun m => !m.read)

/-! ## Provider fetchers (`mail_service.py`)

`_fetch_from_external_api` wraps its whole body — URL building, the HTTP
GET (`raise_for_status` turns a non-200 status into an exception, a timeout
raises, `response.json()` raises on a malformed payload) and the payload
parsing — in one `try`, and its `except Exception` clause logs and
`return []`.  `_fetch_from_cloudflare_kv` does the same around the KV read.
The body is abstracted to its outcome: either a raised exception of one of
the three failure modes, or a parsed mail list. -/

inductive FetchFailure where
  | timeout : FetchFailure
  | non200 : ℕ → FetchFailure
  | malformedPayload : FetchFailure
deriving DecidableEq, Repr

/-- Outcome of the `try` body before the `except` clause runs. -/
def FetchOutcome := Except FetchFailure (List Mail)

/-- `MailService._fetch_from_external_api`: the `except Exception` clause
turns every failure into a logged `return []`, so the caller can never see a
raised error. -/
def fetchFromExternalApi (outcome : FetchOutcome) : Except FetchFailure (List Mail) :=
  match outcome with
  | Except.ok mails => Except.ok mails
  | Except.error _ => Except.ok []

/-- `MailService._fetch_from_cloudflare_kv`: identical failure handling. -/
def fetchFromCloudflareKV (outcome : FetchOutcome) : Except FetchFailure (List Mail) :=
  match outcome with
  | Except.ok mails => Except.ok mails
  | Except.error _ => Except.ok []

/-! ## `MailService.wait_for_new_mail` (`mail_service.py`)

The polling loop, with wall-clock time abstracted to the accumulated sleep
time: `fetch k` is the mail list returned by the k-th `fetch_mails` call,
`since` the `since_date`, and each iteration past the first adds
`check_interval = max(1, settings.mail_check_interval)` seconds.  The loop
body never raises; on reaching the timeout the function returns `[]`. -/

def waitGo (fetch : ℕ → List Mail) (since : ℕ) (timeoutS cfgInterval : ℕ)
    (k elapsed : ℕ) : List Mail :=
  if elapsed < timeoutS then
    match (fetch k).filter (fun m => since < m.received_at) with
    | [] => waitGo fetch since timeoutS cfgInterval (k + 1) (elapsed + max 1 cfgInterval)
    | m :: rest => m :: rest
  else []
termination_by timeoutS - elapsed
decreasing_by
  have h1 : 1 ≤ max 1 cfgInterval := Nat.le_max_left 1 cfgInterval
  omega

/-- `wait_for_new_mail(email, since_date, timeout)`. -/
def waitForNewMail (fetch : ℕ → List Mail) (since : ℕ) (timeoutS cfgInterval : ℕ) :
    List Mail :=
  waitGo fetch since timeoutS cfgInterval 0 0

/-! ## Concrete data for the example-level statements -/

/-- A sample mail used by the concrete cache / coalescing statements. -/
def mailA : Mail :=
  ⟨"id-a", "", "alice@example.com", "box@example.com", "hello", "body", none, 10, false, none⟩

/-- Two unread mails inserted oldest-first: the stored order is the reverse
of the receive-time-descending order. -/
def mailOld : Mail :=
  ⟨"id-old", "tok", "a@x", "b@x", "first", "body1", none, 1, false, none⟩

def mailNew : Mail :=
  ⟨"id-new", "tok", "a@x", "b@x", "second", "body2", none, 2, false, none⟩

def storeC6 : List Mail := [mailOld, mailNew]

/-- A regex-strategy result used by the cascade statements. -/
def sampleRegexCode : Code := ⟨"482931", "numeric", 6, "\\b\\d\x7b6\x7d\\b", pct 90⟩

/-- A trained-pattern result with confidence `0.90`, above the `0.85`
short-circuit threshold. -/
def samplePatternCode : Code := ⟨"999999", "numeric", 6, "user_pattern_p1", pct 90⟩

/-- An LLM item whose reported `length` disagrees with the code string. -/
def llmItemBadLength : LLMItem := ⟨"123456", some "numeric", some (pct 90), some 4⟩

/-- The counterexample schedule for the coalescing model: three concurrent
callers A=0, B=1, C=2 and the cleanup task 3.  A fetches; B and C wait; B
pops the published result; the thirty checks of C all fail (the entry was popped
by B, and later the cleanup runs), so C falls through and issues a second
provider call. -/
def schedC10 : List ℕ :=
  [0, 1, 2, 0, 1, 2, 0, 1] ++ List.replicate 10 2 ++ [3] ++ List.replicate 20 2 ++ [2]

/-- A fetch function that only ever returns one mail received at time 3. -/
def staleFetch : ℕ → List Mail :=
  fun _ => [⟨"id-stale", "", "a@x", "b@x", "old mail", "body", none, 3, false, none⟩]

/-- Cache state with an empty hot tier and a stale-tier entry cached at
time 0. -/
def cacheStW : CacheState := ⟨none, some ⟨[mailA], 0⟩⟩

/-- The stored list of `storeC6` in receive-time-descending order. -/
def storeC6sorted : List Mail := [mailNew, mailOld]

/-- The top candidate the regex strategy actually returns on `inputC1`. -/
def codeWordC1 : Code := ⟨"code", "alphanumeric", 4, "ctx_your", pct 95⟩

/-! # Claim theorems -/

/-- C1: the claim that on `"Your verification code is 482931. Valid until
2025."` the regex strategy returns exactly one code `"482931"` with
confidence `0.95` (keyword-adjacent), type numeric, length 6 is false on the
code: the extraction does not return that single candidate. -/
theorem C1_counterexample :
    ¬ ((extractCodes inputC1).map (fun c => (c.code, c.type, c.length, c.confidence)) =
      [("482931", "numeric", (6 : ℤ), pct 95)]) := by
  decide

/-- C1 (amended): on that input the regex strategy returns three candidates:
the literal word `"code"` (captured by the `your ... verification` context
pattern) at confidence `0.95`, then `"482931"` at its bare six-digit
confidence `0.90` (the keyword-adjacent patterns do not match it because of
the intervening word `"is"`), then `"2025"` at `0.80`; `"2025"` appears but
does not outrank `"482931"`. -/
theorem C1_regex_example_actual :
    (extractCodes inputC1).map (fun c => (c.code, c.type, c.length, c.confidence)) =
      [("code", "alphanumeric", (4 : ℤ), pct 95), ("482931", "numeric", (6 : ℤ), pct 90),
        ("2025", "numeric", (4 : ℤ), pct 80)] := by
  decide

/-- C2: the claim that an explicit `preferred_method` of `"pattern"` runs
only that strategy and returns its result even when empty is false: with an
empty pattern result the source falls through into the cascade, here ending
at the regex strategy. -/
theorem C2_counterexample :
    ¬ (extractCodesSmart (some "pattern") false [] [] [sampleRegexCode] =
      ([], "pattern", ["pattern"])) := by
  decide

/-- C4: the claim that every failure mode of the provider fetch is surfaced
to the Mail Cache as a single raised error type is false: a timeout is
swallowed by the `except Exception` clause and returned as an ordinary empty
mail list by both fetchers. -/
theorem C4_counterexample :
    fetchFromExternalApi (Except.error FetchFailure.timeout) = Except.ok ([] : List Mail) ∧
    fetchFromCloudflareKV (Except.error FetchFailure.timeout) = Except.ok ([] : List Mail) :=
  ⟨rfl, rfl⟩

/-- C4 (amended): every failure mode of both concrete provider fetchers
(timeout, non-200, malformed payload) is caught, logged, and returned to the
caller as an ordinary empty mail list; no error is raised to the Mail
Cache. -/
theorem C4_failures_swallowed (f : FetchFailure) :
    fetchFromExternalApi (Except.error f) = Except.ok ([] : List Mail) ∧
    fetchFromCloudflareKV (Except.error f) = Except.ok ([] : List Mail) :=
  ⟨rfl, rfl⟩

/-- C6: the claim that `get_unread_mails` returns the unread mails in the
same receive-time-descending order as `get_mails` is false: with two unread
mails stored oldest-first, `get_unread_mails` keeps the stored order while
`get_mails` sorts newest-first. -/
theorem C6_counterexample :
    getUnreadMails storeC6 ≠ (getMails storeC6 none 0).filter (fun m => !m.read) := by
  decide

/-- C9: the claim that every extracted code satisfies `length == len(value)`
is false for the LLM strategy: `_parse_llm_response` trusts the reported
`length` field, so an item claiming length 4 for the six-character code
`"123456"` yields a `Code` violating the invariant. -/
theorem C9_counterexample :
    ((parseLLMResponse [llmItemBadLength]).all
      (fun c => c.length = (c.code.length : ℤ))) = false := by
  decide

set_option maxRecDepth 8000 in
/-- C10: the claim that N concurrent `get_or_fetch_mails` calls for one
address with no cache entry make exactly one provider invocation is false:
in the schedule `schedC10`, caller A fetches, caller B pops the published
coalesced result, and the thirty wait checks of caller C all miss it, so C falls
through and issues a second provider call — two invocations, while every
caller still completes. -/
theorem C10_counterexample :
    (runSched [mailA] schedC10 (initCoalesce 3)).fetchCount = 2 ∧
    (runSched [mailA] schedC10 (initCoalesce 3)).tasks =
      [TaskPc.doneFresh [mailA], TaskPc.doneCoalesced [mailA], TaskPc.doneFresh [mailA]] := by
  decide

/-- C2 (amended): the `preferred_method` dispatch of `extract_codes_smart`:
`"regex"` runs only the regex strategy and returns its result even when
empty; `"pattern"` and `"llm"` return early only on a non-empty result and
otherwise fall through into the full cascade. -/
theorem C2_preferred_method_dispatch (useLLM : Bool) (patternRes llmRes regexRes : List Code) :
    extractCodesSmart (some "regex") useLLM patternRes llmRes regexRes =
      (regexRes, "regex", ["regex"]) ∧
    (patternRes ≠ [] →
      extractCodesSmart (some "pattern") useLLM patternRes llmRes regexRes =
        (patternRes, "pattern", ["pattern"])) ∧
    (llmRes ≠ [] →
      extractCodesSmart (some "llm") useLLM patternRes llmRes regexRes =
        (llmRes, "llm", ["llm"])) ∧
    (patternRes = [] →
      extractCodesSmart (some "pattern") useLLM patternRes llmRes regexRes =
        cascadeExtract useLLM [] llmRes regexRes ["pattern"]) ∧
    (llmRes = [] →
      extractCodesSmart (some "llm") useLLM patternRes llmRes regexRes =
        cascadeExtract useLLM patternRes [] regexRes ["llm"]) := by
  refine ⟨rfl, ?_, ?_, ?_, ?_⟩
  · intro h
    cases patternRes with
    | nil => exact absurd rfl h
    | cons c tl => rfl
  · intro h
    cases llmRes with
    | nil => exact absurd rfl h
    | cons c tl => rfl
  · intro h; subst h; rfl
  · intro h; subst h; rfl

/-- C2 witness: a non-empty pattern result with explicit
`preferred_method = "pattern"` is returned as-is. -/
theorem C2_preferred_method_dispatch_witness :
    ([samplePatternCode] ≠ ([] : List Code)) ∧
    extractCodesSmart (some "pattern") true [samplePatternCode] [] [sampleRegexCode] =
      ([samplePatternCode], "pattern", ["pattern"]) :=
  ⟨by decide, (C2_preferred_method_dispatch true [samplePatternCode] [] [sampleRegexCode]).2.1
    (by decide)⟩

/-- C7: in the default cascade (no `preferred_method`), a pattern-strategy
result whose best (first) match has confidence at least `0.85` is returned
immediately with method `"pattern"`, and the LLM strategy is never
invoked. -/
theorem C7_pattern_short_circuit (useLLM : Bool) (patternRes llmRes regexRes : List Code)
    (best : Code) (hhead : patternRes.head? = some best)
    (hconf : pct 85 ≤ best.confidence) :
    extractCodesSmart none useLLM patternRes llmRes regexRes =
      (patternRes, "pattern", ["pattern"]) ∧
    "llm" ∉ (extractCodesSmart none useLLM patternRes llmRes regexRes).2.2 := by
  cases patternRes with
  | nil => simp at hhead
  | cons c tl =>
    have hc : c = best := by simpa using hhead
    subst hc
    have h1 : extractCodesSmart none useLLM (c :: tl) llmRes regexRes =
        (c :: tl, "pattern", ["pattern"]) := by
      show cascadeExtract useLLM (c :: tl) llmRes regexRes [] = _
      simp [cascadeExtract, hconf]
    exact ⟨h1, by rw [h1]; simp⟩

/-- C7 witness: a trained-pattern hit at confidence `0.90` short-circuits
the cascade even with the LLM enabled. -/
theorem C7_pattern_short_circuit_witness :
    (([samplePatternCode] : List Code).head? = some samplePatternCode ∧
      pct 85 ≤ samplePatternCode.confidence) ∧
    (extractCodesSmart none true [samplePatternCode] [] [sampleRegexCode] =
      ([samplePatternCode], "pattern", ["pattern"]) ∧
    "llm" ∉ (extractCodesSmart none true [samplePatternCode] [] [sampleRegexCode]).2.2) :=
  ⟨⟨rfl, by decide⟩,
    C7_pattern_short_circuit true [samplePatternCode] [] [sampleRegexCode]
      samplePatternCode rfl (by decide)⟩

/-- C3: when the provider call raises and the L1 lookup did not hit (forced
refresh or missing/expired hot entry), `get_or_fetch_mails` raises nothing:
it returns the still-valid stale-tier payload flagged as from-cache, and an
empty list when the stale tier is also absent or expired. -/
theorem C3_fetch_error_fallback (l1ttl now : ℕ) (st : CacheState) (force : Bool) (e : Unit)
    (hmiss : force = true ∨ getFromCache l1ttl now st.l1 = none) :
    (∃ r, getOrFetchMails l1ttl now st force (Except.error e) = Except.ok r) ∧
    (∀ en, getFromCache 300 now st.l2 = some en →
      getOrFetchMails l1ttl now st force (Except.error e) = Except.ok ((en.mails, true), st)) ∧
    (getFromCache 300 now st.l2 = none →
      getOrFetchMails l1ttl now st force (Except.error e) = Except.ok (([], false), st)) := by
  have hb : getOrFetchMails l1ttl now st force (Except.error e) =
      (match getFromCache 300 now st.l2 with
        | some en => Except.ok ((en.mails, true), st)
        | none => Except.ok (([], false), st)) := by
    rcases hmiss with hf | hl1
    · subst hf; rfl
    · cases force with
      | true => rfl
      | false =>
        show (match getFromCache l1ttl now st.l1 with
          | some en => Except.ok ((en.mails, true), st)
          | none =>
            match getFromCache 300 now st.l2 with
            | some en => Except.ok ((en.mails, true), st)
            | none => Except.ok (([], false), st)) = _
        rw [hl1]
  refine ⟨?_, ?_, ?_⟩
  · cases hc : getFromCache 300 now st.l2 <;> rw [hb] <;> rw [hc] <;> exact ⟨_, rfl⟩
  · intro en hc; rw [hb, hc]
  · intro hc; rw [hb, hc]

/-- C3 witness: empty hot tier, stale entry cached at 0 and still valid at
`now = 100`: the raising fetch is absorbed and the stale payload served as
a cache hit. -/
theorem C3_fetch_error_fallback_witness :
    (false = true ∨ getFromCache 30 100 cacheStW.l1 = none) ∧
    getOrFetchMails 30 100 cacheStW false (Except.error ()) =
      Except.ok (([mailA], true), cacheStW) :=
  ⟨Or.inr rfl,
    (C3_fetch_error_fallback 30 100 cacheStW false () (Or.inr rfl)).2.1 ⟨[mailA], 0⟩ rfl⟩

/-- C8: when every fetch performed during the call yields only mails
received at or before `since`, the polling waiter terminates once the
accumulated sleep time reaches the timeout and returns the empty list (a
defined outcome; the loop contains no raise). -/
theorem C8_waiter_timeout_empty (fetch : ℕ → List Mail) (since timeoutS cfgInterval : ℕ)
    (h : ∀ k m, m ∈ fetch k → m.received_at ≤ since) :
    waitForNewMail fetch since timeoutS cfgInterval = [] := by
  have key : ∀ fuelN k elapsed, timeoutS - elapsed ≤ fuelN →
      waitGo fetch since timeoutS cfgInterval k elapsed = [] := by
    intro fuelN
    induction fuelN with
    | zero =>
      intro k elapsed hle
      have hnlt : ¬ elapsed < timeoutS := by omega
      rw [waitGo]
      simp [hnlt]
    | succ n ih =>
      intro k elapsed hle
      rw [waitGo]
      by_cases hlt : elapsed < timeoutS
      · have hfil : (fetch k).filter (fun m => since < m.received_at) = [] := by
          rw [List.filter_eq_nil_iff]
          intro m hm
          simp only [decide_eq_true_eq, Nat.not_lt]
          exact h k m hm
        simp only [if_pos hlt, hfil]
        exact ih (k + 1) (elapsed + max 1 cfgInterval)
          (by have h1 : 1 ≤ max 1 cfgInterval := Nat.le_max_left 1 cfgInterval; omega)
      · simp [hlt]
  exact key timeoutS 0 0 (by omega)

/-- C8 witness: a provider that always returns one mail received at time 3
makes `wait_for_new_mail` with `since = 5` time out to `[]`. -/
theorem C8_waiter_timeout_empty_witness :
    (∀ k m, m ∈ staleFetch k → m.received_at ≤ 5) ∧
    waitForNewMail staleFetch 5 1 10 = [] := by
  have hhyp : ∀ k m, m ∈ staleFetch k → m.received_at ≤ 5 := by
    intro k m hm
    simp only [staleFetch, List.mem_singleton] at hm
    subst hm
    decide
  exact ⟨hhyp, C8_waiter_timeout_empty staleFetch 5 1 10 hhyp⟩

/-- The id accumulator of the merge loop stays the id image of the merged
list. -/
theorem mergeMails_ids_sync :
    ∀ (inc merged : List Mail) (ids : List String), ids = merged.map Mail.id →
      (mergeMails merged ids inc).2 = (mergeMails merged ids inc).1.map Mail.id := by
  intro inc
  induction inc with
  | nil => intro merged ids h; simpa [mergeMails] using h
  | cons m rest ih =>
    intro merged ids h
    rw [mergeMails]
    by_cases hm : m.id ∈ ids
    · simp only [if_pos hm]
      exact ih merged ids h
    · simp only [if_neg hm]
      exact ih (merged ++ [m]) (ids ++ [m.id]) (by rw [h, List.map_append]; rfl)

/-- The merge loop only ever grows the id accumulator. -/
theorem mergeMails_ids_mono :
    ∀ (inc merged : List Mail) (ids : List String) (x : String), x ∈ ids →
      x ∈ (mergeMails merged ids inc).2 := by
  intro inc
  induction inc with
  | nil => intro merged ids x hx; simpa [mergeMails] using hx
  | cons m rest ih =>
    intro merged ids x hx
    rw [mergeMails]
    by_cases hm : m.id ∈ ids
    · simp only [if_pos hm]; exact ih merged ids x hx
    · simp only [if_neg hm]
      exact ih (merged ++ [m]) (ids ++ [m.id]) x (List.mem_append_left _ hx)

/-- After the merge loop, every incoming id is in the accumulator. -/
theorem mergeMails_ids_complete :
    ∀ (inc merged : List Mail) (ids : List String) (m : Mail), m ∈ inc →
      m.id ∈ (mergeMails merged ids inc).2 := by
  intro inc
  induction inc with
  | nil => intro merged ids m hm; exact absurd hm (List.not_mem_nil m)
  | cons a rest ih =>
    intro merged ids m hm
    rw [mergeMails]
    rcases List.mem_cons.mp hm with rfl | hrest
    · by_cases ha : m.id ∈ ids
      · simp only [if_pos ha]; exact mergeMails_ids_mono rest merged ids m.id ha
      · simp only [if_neg ha]
        exact mergeMails_ids_mono rest (merged ++ [m]) (ids ++ [m.id]) m.id
          (List.mem_append_right _ (List.mem_singleton.mpr rfl))
    · by_cases ha : a.id ∈ ids
      · simp only [if_pos ha]; exact ih merged ids m hrest
      · simp only [if_neg ha]; exact ih (merged ++ [a]) (ids ++ [a.id]) m hrest

/-- When every incoming id is already known, the merge loop is the
identity. -/
theorem mergeMails_noop :
    ∀ (inc merged : List Mail) (ids : List String), (∀ m ∈ inc, m.id ∈ ids) →
      mergeMails merged ids inc = (merged, ids) := by
  intro inc
  induction inc with
  | nil => intro merged ids _; rfl
  | cons m rest ih =>
    intro merged ids h
    rw [mergeMails]
    simp only [if_pos (h m (List.mem_cons_self m rest))]
    exact ih merged ids (fun x hx => h x (List.mem_cons_of_mem m hx))

/-- The merge loop preserves distinctness of the id accumulator. -/
theorem mergeMails_nodup :
    ∀ (inc merged : List Mail) (ids : List String), ids.Nodup →
      (mergeMails merged ids inc).2.Nodup := by
  intro inc
  induction inc with
  | nil => intro _ _ h; simpa [mergeMails] using h
  | cons m rest ih =>
    intro merged ids h
    rw [mergeMails]
    by_cases hm : m.id ∈ ids
    · simp only [if_pos hm]; exact ih merged ids h
    · simp only [if_neg hm]
      refine ih (merged ++ [m]) (ids ++ [m.id]) ?_
      simp [List.nodup_append, h, hm]

/-- C5: `save_mails` keeps the per-token id set duplicate-free, and saving
the identical incoming batch a second time changes neither the stored list
nor its length (the `mail_count` of the mailbox). -/
theorem C5_save_mails_dedup_idempotent (tok : String) (existing incoming : List Mail)
    (hnodup : (existing.map Mail.id).Nodup) :
    ((saveMails tok existing incoming).map Mail.id).Nodup ∧
    saveMails tok (saveMails tok existing incoming) incoming = saveMails tok existing incoming ∧
    (saveMails tok (saveMails tok existing incoming) incoming).length =
      (saveMails tok existing incoming).length := by
  have hsync := mergeMails_ids_sync (setEmailToken tok incoming) existing
    (existing.map Mail.id) rfl
  have hnd : ((saveMails tok existing incoming).map Mail.id).Nodup := by
    rw [saveMails, ← hsync]
    exact mergeMails_nodup (setEmailToken tok incoming) existing (existing.map Mail.id) hnodup
  have hidem : saveMails tok (saveMails tok existing incoming) incoming =
      saveMails tok existing incoming := by
    rw [saveMails, saveMails]
    have hall : ∀ m ∈ setEmailToken tok incoming,
        m.id ∈ ((mergeMails existing (existing.map Mail.id) (setEmailToken tok incoming)).1).map
          Mail.id := by
      intro m hm
      rw [← hsync]
      exact mergeMails_ids_complete (setEmailToken tok incoming) existing
        (existing.map Mail.id) m hm
    rw [mergeMails_noop (setEmailToken tok incoming) _ _ hall]
  exact ⟨hnd, hidem, by rw [hidem]⟩

/-- C5 witness: saving a batch that contains an internal duplicate into an
empty store, twice. -/
theorem C5_save_mails_dedup_idempotent_witness :
    ((([] : List Mail).map Mail.id).Nodup) ∧
    (((saveMails "tok" [] [mailOld, mailOld]).map Mail.id).Nodup ∧
    saveMails "tok" (saveMails "tok" [] [mailOld, mailOld]) [mailOld, mailOld] =
      saveMails "tok" [] [mailOld, mailOld] ∧
    (saveMails "tok" (saveMails "tok" [] [mailOld, mailOld]) [mailOld, mailOld]).length =
      (saveMails "tok" [] [mailOld, mailOld]).length) :=
  ⟨List.nodup_nil, C5_save_mails_dedup_idempotent "tok" [] [mailOld, mailOld] List.nodup_nil⟩

/-- C6 (amended): `get_unread_mails` returns the unread stored mails in
stored (insertion) order: the same multiset as filtering the
receive-time-descending output to unread, and the same list exactly when
the stored order is already receive-time-descending. -/
theorem C6_unread_filter (stored : List Mail) :
    (getUnreadMails stored).Perm ((getMails stored none 0).filter (fun m => !m.read)) ∧
    (sortMailsDesc stored = stored →
      getUnreadMails stored = (getMails stored none 0).filter (fun m => !m.read)) := by
  have hg : getMails stored none 0 = sortMailsDesc stored := by
    simp [getMails]
  constructor
  · rw [hg]
    exact ((List.perm_insertionSort _ stored).filter _).symm
  · intro hsorted
    rw [hg, hsorted]
    rfl

/-- C6 witness: on a store whose insertion order is already newest-first the
two reads agree. -/
theorem C6_unread_filter_witness :
    sortMailsDesc storeC6sorted = storeC6sorted ∧
    getUnreadMails storeC6sorted = (getMails storeC6sorted none 0).filter (fun m => !m.read) :=
  ⟨by decide, (C6_unread_filter storeC6sorted).2 (by decide)⟩

/-- `takeExactDigits n` returns exactly `n` characters. -/
theorem takeExactDigits_length :
    ∀ (n : ℕ) (s ds rest : List Char), takeExactDigits n s = some (ds, rest) →
      ds.length = n := by
  intro n
  induction n with
  | zero =>
    intro s ds rest h
    simp only [takeExactDigits, Option.some.injEq, Prod.mk.injEq] at h
    rw [← h.1]
    rfl
  | succ k ih =>
    intro s ds rest h
    cases s with
    | nil => simp [takeExactDigits] at h
    | cons c cs =>
      rw [takeExactDigits] at h
      by_cases hd : isAsciiDigit c
      · simp only [if_pos hd] at h
        cases hte : takeExactDigits k cs with
        | none => rw [hte] at h; simp at h
        | some pair =>
          obtain ⟨ds2, rest2⟩ := pair
          rw [hte] at h
          simp only [Option.some.injEq, Prod.mk.injEq] at h
          rw [← h.1]
          simp [ih cs ds2 rest2 hte]
      · simp [hd] at h

/-- Every match of the `\b\d{n}\b` scanner has exactly `n` characters. -/
theorem findNumGo_length :
    ∀ (n fuel : ℕ) (prev : Option Char) (s ds : List Char),
      ds ∈ findNumGo n fuel prev s → ds.length = n := by
  intro n fuel
  induction fuel with
  | zero => intro prev s ds h; simp [findNumGo] at h
  | succ f ih =>
    intro prev s ds h
    cases s with
    | nil => simp [findNumGo] at h
    | cons c rest =>
      rw [findNumGo] at h
      by_cases hb : boundaryBefore prev
      · simp only [if_pos hb] at h
        cases hte : takeExactDigits n (c :: rest) with
        | none => rw [hte] at h; exact ih (some c) rest ds h
        | some pair =>
          obtain ⟨ds2, rest2⟩ := pair
          rw [hte] at h
          by_cases hba : boundaryAfter rest2
          · simp only [if_pos hba] at h
            rcases List.mem_cons.mp h with rfl | hmem
            · exact takeExactDigits_length n (c :: rest) ds rest2 hte
            · exact ih _ rest2 ds hmem
          · simp only [if_neg hba] at h
            exact ih (some c) rest ds h
      · simp only [if_neg hb] at h
        exact ih (some c) rest ds h

/-- Every element produced by `addFoundIf` satisfies `P` when the
accumulator does and `mk` does on the found matches. -/
theorem addFoundIf_forall (P : Code → Prop) (keep : List Char → Bool)
    (mk : List Char → Code) :
    ∀ (found : List (List Char)) (acc : List Code), (∀ c ∈ acc, P c) →
      (∀ cs ∈ found, P (mk cs)) → ∀ c ∈ addFoundIf keep mk acc found, P c := by
  intro found
  induction found with
  | nil => intro acc hacc _ c hc; exact hacc c hc
  | cons cs rest ih =>
    intro acc hacc hmk c hc
    rw [addFoundIf] at hc
    by_cases hcond : !isDuplicate acc (String.mk cs) && keep cs
    · rw [if_pos hcond] at hc
      refine ih (acc ++ [mk cs]) ?_ (fun x hx => hmk x (List.mem_cons_of_mem cs hx)) c hc
      intro x hx
      rcases List.mem_append.mp hx with hx1 | hx2
      · exact hacc x hx1
      · rw [List.mem_singleton.mp hx2]
        exact hmk cs (List.mem_cons_self cs rest)
    · rw [if_neg hcond] at hc
      exact ih acc hacc (fun x hx => hmk x (List.mem_cons_of_mem cs hx)) c hc

/-- C9 helper: the codes of the regex strategy all satisfy the length
invariant. -/
theorem extractCodes_length_eq (text : List Char) :
    ∀ c ∈ extractCodes text, c.length = (c.code.length : ℤ) := by
  intro c hc
  simp only [extractCodes, sortByConfidence] at hc
  have hc2 := (List.perm_insertionSort _ _).mem_iff.mp hc
  have hmk6 : ∀ cs ∈ findNum 6 text, ((6 : ℤ) = ((String.mk cs).length : ℤ)) := by
    intro cs hcs
    show (6 : ℤ) = (cs.length : ℤ)
    rw [findNumGo_length 6 (text.length + 1) none text cs hcs]
    rfl
  have hmk4 : ∀ cs ∈ findNum 4 text, ((4 : ℤ) = ((String.mk cs).length : ℤ)) := by
    intro cs hcs
    show (4 : ℤ) = (cs.length : ℤ)
    rw [findNumGo_length 4 (text.length + 1) none text cs hcs]
    rfl
  have hmk8 : ∀ cs ∈ findNum 8 text, ((8 : ℤ) = ((String.mk cs).length : ℤ)) := by
    intro cs hcs
    show (8 : ℤ) = (cs.length : ℤ)
    rw [findNumGo_length 8 (text.length + 1) none text cs hcs]
    rfl
  exact addFoundIf_forall (fun x : Code => x.length = (x.code.length : ℤ)) _ _ _ _
    (addFoundIf_forall (fun x : Code => x.length = (x.code.length : ℤ)) _ _ _ _
      (addFoundIf_forall (fun x : Code => x.length = (x.code.length : ℤ)) _ _ _ _
        (addFoundIf_forall (fun x : Code => x.length = (x.code.length : ℤ)) _ _ _ _
          (addFoundIf_forall (fun x : Code => x.length = (x.code.length : ℤ)) _ _ _ _
            (addFoundIf_forall (fun x : Code => x.length = (x.code.length : ℤ)) _ _ _ _
              (addFoundIf_forall (fun x : Code => x.length = (x.code.length : ℤ)) _ _ _ _
                (addFoundIf_forall (fun x : Code => x.length = (x.code.length : ℤ)) _ _ _ _
                  (fun x hx => absurd hx (List.not_mem_nil x))
                  hmk6)
                hmk4)
              hmk8)
            (fun cs _ => rfl))
          (fun cs _ => rfl))
        (fun cs _ => rfl))
      (fun cs _ => rfl))
    (fun cs _ => rfl) c hc2

/-- C9 helper: the trained-pattern keyword loop preserves the length
invariant (its codes always carry `len(extracted_code)`). -/
theorem patternKeywordLoop_length (find : TrainedPattern → String → Option String)
    (p : TrainedPattern) :
    ∀ (ks : List String) (acc : List Code),
      (∀ c ∈ acc, c.length = (c.code.length : ℤ)) →
      ∀ c ∈ patternKeywordLoop find p acc ks, c.length = (c.code.length : ℤ) := by
  intro ks
  induction ks with
  | nil => intro acc hacc c hc; exact hacc c hc
  | cons k ks ih =>
    intro acc hacc c hc
    rw [patternKeywordLoop] at hc
    split at hc
    · split at hc
      · exact ih acc hacc c hc
      · rcases List.mem_append.mp hc with h1 | h2
        · exact hacc c h1
        · rw [List.mem_singleton.mp h2]
    · exact ih acc hacc c hc

/-- C9 helper: the whole trained-pattern strategy satisfies the length
invariant, for any set of learned patterns and any oracle behaviour. -/
theorem patternExtractCodes_length (find : TrainedPattern → String → Option String)
    (patterns : List TrainedPattern) :
    ∀ c ∈ patternExtractCodes find patterns, c.length = (c.code.length : ℤ) := by
  intro c hc
  simp only [patternExtractCodes, sortByConfidence] at hc
  have hc2 := (List.perm_insertionSort _ _).mem_iff.mp hc
  have hfold : ∀ (ps : List TrainedPattern) (acc : List Code),
      (∀ x ∈ acc, x.length = (x.code.length : ℤ)) →
      ∀ x ∈ ps.foldl (fun acc p => patternKeywordLoop find p acc p.keywords_before) acc,
        x.length = (x.code.length : ℤ) := by
    intro ps
    induction ps with
    | nil => intro acc hacc x hx; exact hacc x hx
    | cons p ps ih =>
      intro acc hacc x hx
      rw [List.foldl_cons] at hx
      exact ih _ (patternKeywordLoop_length find p p.keywords_before acc hacc) x hx
  exact hfold patterns [] (fun x hx => absurd hx (List.not_mem_nil x)) c hc2

/-- C9 helper: the LLM candidate collection satisfies the length invariant
whenever no item reports an explicit `length`. -/
theorem llmCollect_length :
    ∀ (items : List LLMItem) (seen : List String) (acc : List Code),
      (∀ i ∈ items, i.length = none) →
      (∀ c ∈ acc, c.length = (c.code.length : ℤ)) →
      ∀ c ∈ llmCollect seen acc items, c.length = (c.code.length : ℤ) := by
  intro items
  induction items with
  | nil => intro seen acc _ hacc c hc; exact hacc c hc
  | cons item rest ih =>
    intro seen acc hnone hacc c hc
    simp only [llmCollect] at hc
    by_cases h1 : pyStrip item.code = ""
    · rw [if_pos h1] at hc
      exact ih seen acc (fun i hi => hnone i (List.mem_cons_of_mem item hi)) hacc c hc
    · rw [if_neg h1] at hc
      by_cases h2 : pyStrip item.code ∈ seen
      · rw [if_pos h2] at hc
        exact ih seen acc (fun i hi => hnone i (List.mem_cons_of_mem item hi)) hacc c hc
      · rw [if_neg h2] at hc
        refine ih _ _ (fun i hi => hnone i (List.mem_cons_of_mem item hi)) ?_ c hc
        intro x hx
        rcases List.mem_append.mp hx with hxa | hxb
        · exact hacc x hxa
        · rw [List.mem_singleton.mp hxb]
          have hlen := hnone item (List.mem_cons_self item rest)
          show (item.length).getD ((pyStrip item.code).length : ℤ) =
            ((pyStrip item.code).length : ℤ)
          rw [hlen, Option.getD_none]

/-- C9 helper: the single best candidate returned by the LLM response parse
satisfies the length invariant when no item reports an explicit `length`. -/
theorem parseLLMResponse_length (items : List LLMItem)
    (hnone : ∀ i ∈ items, i.length = none) :
    ∀ c ∈ parseLLMResponse items, c.length = (c.code.length : ℤ) := by
  intro c hc
  simp only [parseLLMResponse] at hc
  cases hsort : (llmCollect [] [] items).insertionSort (fun a b => rankLe a b = true) with
  | nil => rw [hsort] at hc; exact absurd hc (List.not_mem_nil c)
  | cons best tl =>
    rw [hsort] at hc
    have hbest : best ∈ (llmCollect [] [] items).insertionSort (fun a b => rankLe a b = true) := by
      rw [hsort]; exact List.mem_cons_self best tl
    have hmem := (List.perm_insertionSort _ _).mem_iff.mp hbest
    rw [List.mem_singleton.mp hc]
    exact llmCollect_length items [] [] hnone (fun x hx => absurd hx (List.not_mem_nil x))
      best hmem

/-- C9 (amended): every code produced by the regex strategy and the
trained-pattern strategy satisfies `length == len(value)`; a code produced
by the LLM strategy satisfies it when the response item omits the `length`
field (the source otherwise trusts the reported value). -/
theorem C9_length_invariant :
    (∀ (text : List Char), ∀ c ∈ extractCodes text, c.length = (c.code.length : ℤ)) ∧
    (∀ (find : TrainedPattern → String → Option String) (patterns : List TrainedPattern),
      ∀ c ∈ patternExtractCodes find patterns, c.length = (c.code.length : ℤ)) ∧
    (∀ (items : List LLMItem), (∀ i ∈ items, i.length = none) →
      ∀ c ∈ parseLLMResponse items, c.length = (c.code.length : ℤ)) :=
  ⟨extractCodes_length_eq, patternExtractCodes_length, parseLLMResponse_length⟩

/-- C9 witness: the top candidate on the C1 example input satisfies the
length invariant. -/
theorem C9_length_invariant_witness :
    codeWordC1 ∈ extractCodes inputC1 ∧ codeWordC1.length = (codeWordC1.code.length : ℤ) :=
  ⟨by decide, C9_length_invariant.1 inputC1 codeWordC1 (by decide)⟩

/-- C10 helper: one coroutine segment never touches the task list, and
changes the invocation counter exactly when the task transitions into (or
stays in) a fetching state. -/
theorem stepPc_balance (payload : List Mail) (s : CoalesceState) (pc : TaskPc) :
    (stepPc payload s pc).2.tasks = s.tasks ∧
    (stepPc payload s pc).2.fetchCount + (startedFetch pc).toNat =
      s.fetchCount + (startedFetch (stepPc payload s pc).1).toNat := by
  obtain ⟨tk, lk, l1, rs, cl, fc⟩ := s
  cases pc with
  | start => exact ⟨rfl, rfl⟩
  | deciding =>
    cases l1 with
    | some m => exact ⟨rfl, rfl⟩
    | none => cases lk <;> exact ⟨rfl, rfl⟩
  | waiting n =>
    cases rs with
    | some r => exact ⟨rfl, rfl⟩
    | none =>
      by_cases hn : n ≤ 1
      · simp only [stepPc, if_pos hn]
        exact ⟨trivial, rfl⟩
      · simp only [stepPc, if_neg hn]
        exact ⟨trivial, rfl⟩
  | fetching => exact ⟨rfl, rfl⟩
  | doneHit m => exact ⟨rfl, rfl⟩
  | doneCoalesced m => exact ⟨rfl, rfl⟩
  | doneFresh m => exact ⟨rfl, rfl⟩

/-- C10 helper: a scheduled step never changes the number of tasks. -/
theorem stepSys_tasks_length (payload : List Mail) (s : CoalesceState) (i : ℕ) :
    (stepSys payload s i).tasks.length = s.tasks.length := by
  rw [stepSys]
  split
  · split <;> rfl
  · cases hpc : s.tasks[i]? with
    | none => rfl
    | some pc =>
      simp only [(stepPc_balance payload s pc).1, List.length_set]

/-- C10 helper: a scheduled step preserves the equation between the
invocation counter and the number of tasks that fetched themselves. -/
theorem stepSys_inv (payload : List Mail) (s : CoalesceState) (i : ℕ)
    (h : s.fetchCount = s.tasks.countP startedFetch) :
    (stepSys payload s i).fetchCount = (stepSys payload s i).tasks.countP startedFetch := by
  have hif : ∀ b : Bool, (if b = true then 1 else 0) = b.toNat := by
    intro b; cases b <;> rfl
  rw [stepSys]
  split
  · split <;> exact h
  · cases hpc : s.tasks[i]? with
    | none => exact h
    | some pc =>
      obtain ⟨hi, hget⟩ := List.getElem?_eq_some.mp hpc
      obtain ⟨htasks, hbal⟩ := stepPc_balance payload s pc
      simp only [htasks]
      rw [List.countP_set startedFetch s.tasks i _ hi, hget, hif, hif]
      have hmem : pc ∈ s.tasks := hget ▸ List.getElem_mem hi
      cases hA : startedFetch pc with
      | true =>
        have hpos : 0 < s.tasks.countP startedFetch :=
          List.countP_pos_iff.mpr ⟨pc, hmem, hA⟩
        cases hB : startedFetch (stepPc payload s pc).1 <;>
          simp only [hA, hB, Bool.toNat_true, Bool.toNat_false] at hbal ⊢ <;> omega
      | false =>
        cases hB : startedFetch (stepPc payload s pc).1 <;>
          simp only [hA, hB, Bool.toNat_true, Bool.toNat_false] at hbal ⊢ <;> omega

/-- C10 helper: the invariant holds along any schedule. -/
theorem runSched_inv (payload : List Mail) :
    ∀ (sched : List ℕ) (s : CoalesceState),
      s.fetchCount = s.tasks.countP startedFetch →
      (runSched payload sched s).fetchCount =
        (runSched payload sched s).tasks.countP startedFetch := by
  intro sched
  induction sched with
  | nil => intro s h; exact h
  | cons i rest ih =>
    intro s h
    show (runSched payload rest (stepSys payload s i)).fetchCount =
      (runSched payload rest (stepSys payload s i)).tasks.countP startedFetch
    exact ih (stepSys payload s i) (stepSys_inv payload s i h)

/-- C10 helper: the task count is constant along any schedule. -/
theorem runSched_length (payload : List Mail) :
    ∀ (sched : List ℕ) (s : CoalesceState),
      (runSched payload sched s).tasks.length = s.tasks.length := by
  intro sched
  induction sched with
  | nil => intro s; rfl
  | cons i rest ih =>
    intro s
    show (runSched payload rest (stepSys payload s i)).tasks.length = s.tasks.length
    rw [ih (stepSys payload s i)]
    exact stepSys_tasks_length payload s i

/-- No task has fetched at initialisation. -/
theorem initCoalesce_countP (n : ℕ) :
    (List.replicate n TaskPc.start).countP startedFetch = 0 := by
  induction n with
  | zero => rfl
  | succ k ih => simp [List.replicate_succ, List.countP_cons, startedFetch, ih]

/-- C10 (amended): under every schedule of N concurrent callers starting
with no cache entry, the number of provider invocations equals the number of
callers that fell through to fetching themselves — callers that end on a
cache hit or on the coalesced result contribute nothing — and is therefore
at most N, but not necessarily 1 (see the counterexample schedule). -/
theorem C10_fetch_count (payload : List Mail) (sched : List ℕ) (n : ℕ) :
    (runSched payload sched (initCoalesce n)).fetchCount =
      (runSched payload sched (initCoalesce n)).tasks.countP startedFetch ∧
    (runSched payload sched (initCoalesce n)).tasks.length = n := by
  constructor
  · apply runSched_inv
    show (0 : ℕ) = (List.replicate n TaskPc.start).countP startedFetch
    rw [initCoalesce_countP]
  · rw [runSched_length]
    exact List.length_replicate n TaskPc.start
